import Mathlib

/-!
# Verification of the titan scheduler core

A shallow embedding, in Lean 4, of the scheduler core of the titan
content-addressed edge CDN, together with theorems settling the frozen
claims about it.

The embedding follows the Go source:

* `node/scheduler/validate/validate.go` — the validation round engine
  (`startValidate`, `checkValidateTimeOut`, `execute`, `validateMapping`,
  `assemblyValidateReqAndStore`, `handleValidateResult`,
  `StartValidateOnceTask`, helpers).
* the persistent SQL layer (`SetAllNodeOffline`, `ReplaceArea`, the
  per-region table-name templates).
* the scheduler API surface (`AllocateNodes`).

Modelling conventions:

* Go maps become association lists (`List (κ × α)`) with first-match
  lookup; a read of a missing key of a `map[int]string` yields the zero
  value `""`, exactly as in Go.
* The stores (Redis cache, SQL persistent store) are modelled as fields
  of an explicit state record, with a write log for the persistent
  `validate_result` table; store calls are assumed to succeed (failure
  paths that only log-and-continue are modelled as their success
  behaviour).
* `math/rand` draws are oracle streams `Nat → Nat`; a call `r.Intn(max)`
  at call position `k` is modelled as `r k % max`, which ranges over
  exactly the values `0 ≤ v < max` that `Intn` can return.
* A Go runtime panic (out-of-range slice index, failed type assertion,
  `err.Error()` on a nil error) is modelled by an `Option` result being
  `none`.
* Goroutines whose effects the claims observe (timeout marking, per
  validator assembly) are serialised in program order.
-/

namespace Titan

/-- `api.NodeType` (only the constructors the embedded code uses). -/
inductive NodeType
  | unknown
  | edge
  | candidate
  | validatorT
  deriving DecidableEq, Repr

/-- `persistent.ValidateStatus` as used by the validation engine. -/
inductive ValidateStatus
  | create
  | success
  | fail
  | timeOut
  | cancel
  | other
  deriving DecidableEq, Repr

/-- `errMsgTimeOut` from `validate.go`. -/
def errMsgTimeOut : String := "time out"

/-- `errMsgCancel` from `validate.go`. -/
def errMsgCancel : String := "verification canceled due to download"

/-- `api.ValidateResults` as posted by an audited node (fields read by
`handleValidateResult` and `UpdateSuccessValidateResult`). -/
structure ValidateResults where
  roundID : Int
  deviceID : String
  cids : List String
  randomCount : Int
  bandwidth : Int
  costTime : Int
  isCancel : Bool
  isTimeout : Bool
  deriving DecidableEq, Repr

/-- One write against the persistent `validate_result` table, as issued by
`InsertValidateResultInfo`, `UpdateFailValidateResultInfo` and
`UpdateSuccessValidateResultInfo`. -/
inductive DBWrite
  | insertResult (roundId : Int) (deviceId validatorId : String) (status : ValidateStatus)
  | updateFail (roundId : Int) (deviceId msg : String) (status : ValidateStatus)
  | updateSuccess (roundId : Int) (deviceId : String) (blockNumber : Int) (msg : String)
      (status : ValidateStatus) (bandwidth costTime : Int)
  deriving DecidableEq, Repr

/-- `validateState` from `validate.go` (`validationNotStarted` /
`validationStarting`). -/
inductive EngineMode
  | notStarted
  | starting
  deriving DecidableEq, Repr

/-- First-match association-list lookup (the read half of a Go map or of a
`sync.Map`). -/
def assocGet? {α : Type} : List (String × α) → String → Option α
  | [], _ => none
  | (k, v) :: rest, key => if k = key then some v else assocGet? rest key

/-- `sync.Map.Store`: replace the first binding of the key, or append a new
binding. -/
def assocSet {α : Type} : List (String × α) → String → α → List (String × α)
  | [], key, v => [(key, v)]
  | (k, w) :: rest, key, v =>
    if k = key then (k, v) :: rest else (k, w) :: assocSet rest key v

/-- Read of a Go `map[int]string`: a missing key yields the zero value `""`. -/
def intMapRead : List (Int × String) → Int → String
  | [], _ => ""
  | (k, v) :: rest, key => if k = key then v else intMapRead rest key

end Titan

namespace Titan

/-! ## Persistent SQL layer (`sqlDB`) -/

/-- One row of the `node` table
(`device_id, last_time, geo, node_type, is_online, address, server_name,
create_time`). -/
structure NodeRow where
  deviceID : String
  lastTime : String
  geo : String
  nodeType : Int
  isOnline : Int
  address : String
  serverName : String
  createTime : String
  deriving DecidableEq, Repr

/-- `sqlDB.SetAllNodeOffline`: the SQL statement
`UPDATE node SET is_online=0 WHERE server_name=:server_name`, run with this
scheduler's `serverName`, applied to a table of rows. -/
def SetAllNodeOffline (serverName : String) (table : List NodeRow) : List NodeRow :=
  table.map fun r => if r.serverName = serverName then { r with isOnline := 0 } else r

/-! ### Per-region table names

Strings manipulated character-wise are embedded as `List Char`.
`charToLower` models `strings.ToLower` on the ASCII range (region tags are
ASCII identifiers). -/

/-- ASCII lowercasing of one character (`strings.ToLower`, per rune). -/
def charToLower (c : Char) : Char := c.toLower

/-- `strings.Replace(s, old, new, -1)` for a one-character pattern: replace
every occurrence. -/
def replaceAll (old new : Char) : List Char → List Char
  | [] => []
  | c :: rest => (if c = old then new else c) :: replaceAll old new rest

/-- `sqlDB.ReplaceArea`: lowercase the configured `serverArea`, then replace
every `-` by `_`. -/
def ReplaceArea (serverArea : List Char) : List Char :=
  replaceAll '-' '_' (serverArea.map charToLower)

/-- The table-name template `deviceBlockTable = "device_blocks_%s"`. -/
def deviceBlockTable : List Char := "device_blocks_%s".toList

/-- The table-name template `dataInfoTable = "data_info_%s"`. -/
def dataInfoTable : List Char := "data_info_%s".toList

/-- `fmt.Sprintf` for a format string containing a single `%s` verb. -/
def sprintf1 : List Char → List Char → List Char
  | [], _ => []
  | '%' :: 's' :: rest, arg => arg ++ rest
  | c :: rest, arg => c :: sprintf1 rest arg

/-- The spec's description of the suffix: the region lowercased, with every
`-` of the lowercased string replaced by `_`, in one character-wise pass. -/
def specRegionSuffix (region : List Char) : List Char :=
  region.map fun c => if charToLower c = '-' then '_' else charToLower c

/-! ## `AllocateNodes` (the `RegisterNode` entry point) -/

/-- `api.NodeAllocateInfo`: one allocation record returned to the caller. -/
structure NodeAllocateInfo where
  deviceID : String
  secret : String
  nodeType : Int
  deriving DecidableEq, Repr

/-- The loop body of `Scheduler.AllocateNodes`: run `count` iterations of
`node.Allocate` (the oracle `allocate`, indexed by iteration), appending each
successful allocation and skipping (only logging) each failed one. -/
def allocateLoop (allocate : Nat → Except String NodeAllocateInfo) :
    Nat → Nat → List NodeAllocateInfo
  | 0, _ => []
  | steps + 1, i =>
    match allocate i with
    | .error _ => allocateLoop allocate steps (i + 1)
    | .ok info => info :: allocateLoop allocate steps (i + 1)

/-- `Scheduler.AllocateNodes`: for `count ≤ 0` or `count > 10` return the
empty list and no error; otherwise run the allocation loop. The Go function
always returns a `nil` error (modelled as the constantly-`none` second
component). -/
def AllocateNodes (allocate : Nat → Except String NodeAllocateInfo)
    (count : Int) : List NodeAllocateInfo × Option String :=
  if count ≤ 0 ∨ count > 10 then ([], none)
  else (allocateLoop allocate count.toNat 0, none)

/-! ## Validation round engine (`validate.go`) -/

/-- The engine's state: the `Validate` struct's mutable fields plus the two
stores it drives (the Redis "verifying" set and the persistent
`validate_result` write log). -/
structure EngineState where
  preRoundId : Int
  curRoundId : Int
  seed : Int
  duration : Int
  interval : Int
  enable : Bool
  validateState : EngineMode
  verifying : List String
  maxFidMap : List (String × Int)
  writes : List DBWrite
  deriving DecidableEq, Repr

/-- `Validate.getRandNum`: `r.Intn(max)` when `max > 0`, else `max`. The
stream `r` gives the RNG draws of the seeded source; call position `k` draws
`r k % max`, exactly the range of `Intn`. -/
def getRandNum (max : Int) (r : Nat → Nat) (k : Nat) : Int :=
  if max > 0 then (r k : Int) % max else max

/-- `Validate.compareCid`: hash both CID strings with
`helper.CIDString2HashString` (the oracle `cidHash`; `none` is a parse
error) and compare; any parse error yields `false`. -/
def compareCid (cidHash : String → Option String) (cidStr1 cidStr2 : String) : Bool :=
  match cidHash cidStr1, cidHash cidStr2 with
  | some h1, some h2 => h1 == h2
  | _, _ => false

/-- Outcome of the scoring loop in `handleValidateResult`. -/
inductive ScoreResult
  | ok
  | mismatch (resultCid cidDb : String) (fid : Int) (index : Nat)
  deriving DecidableEq, Repr

/-- The scoring loop of `handleValidateResult`: at each `index`, draw
`fid = getRandNum(maxFid) + 1`, read `cids[index]` (out of range is a Go
panic, modelled `none`), look the drawn `fid` up in the node's fid→cid map
(missing key reads as `""` and the index is skipped), and compare CIDs.
`steps` counts the remaining iterations, starting from `RandomCount`. -/
def scoreLoop (cids : List String) (cacheInfos : List (Int × String)) (maxFid : Int)
    (r : Nat → Nat) (cidHash : String → Option String) : Nat → Nat → Option ScoreResult
  | 0, _ => some .ok
  | steps + 1, index =>
    let fid := getRandNum maxFid r index + 1
    match cids.get? index with
    | none => none
    | some resultCid =>
      let cid := intMapRead cacheInfos fid
      if cid = "" then scoreLoop cids cacheInfos maxFid r cidHash steps (index + 1)
      else if compareCid cidHash cid resultCid then
        scoreLoop cids cacheInfos maxFid r cidHash steps (index + 1)
      else some (.mismatch resultCid cid fid index)

/-- The diagnostic message of a scoring mismatch. -/
def mismatchMsg (resultCid cidDb : String) (fid : Int) (index : Nat) : String :=
  "validate fail; resultCid:" ++ resultCid ++ ",cid_db:" ++ cidDb ++ ",fid:" ++
    toString fid ++ ",index:" ++ toString index

/-- The environment `handleValidateResult` reads: `GetBlocksFID` (the
audited node's fid→cid map, or a query error), the RNG stream of the round
seed, and the CID hash oracle. -/
structure HandleEnv where
  blocksFid : String → Except String (List (Int × String))
  r : Nat → Nat
  cidHash : String → Option String

/-- The body of `handleValidateResult` after the round-id check: the write
it issues against `validate_result`, or `none` for a Go panic (empty
fid→cid map with a nil error makes `err.Error()` dereference nil; a missing
`maxFidMap` entry makes the `int64` type assertion fail; the scoring loop
can index `cids` out of range). -/
def handleBody (st : EngineState) (env : HandleEnv) (vr : ValidateResults) :
    Option (List DBWrite) :=
  if vr.isCancel then some [.updateFail vr.roundID vr.deviceID errMsgCancel .cancel]
  else if vr.isTimeout then some [.updateFail vr.roundID vr.deviceID errMsgTimeOut .timeOut]
  else if vr.cids.length ≤ 0 ∨ vr.randomCount ≤ 0 then
    some [.updateFail vr.roundID vr.deviceID
      "validate result is null or random count is 0" .fail]
  else
    match env.blocksFid vr.deviceID with
    | .error e => some [.updateFail vr.roundID vr.deviceID ("failed to query : " ++ e) .other]
    | .ok infos =>
      if infos.length ≤ 0 then none
      else
        match assocGet? st.maxFidMap vr.deviceID with
        | none => none
        | some maxFid =>
          match scoreLoop vr.cids infos maxFid env.r env.cidHash vr.randomCount.toNat 0 with
          | none => none
          | some .ok => some [.updateSuccess vr.roundID vr.deviceID
              (vr.cids.length : Int) "ok" .success vr.bandwidth vr.costTime]
          | some (.mismatch rc cdb fid idx) =>
            some [.updateFail vr.roundID vr.deviceID (mismatchMsg rc cdb fid idx) .fail]

/-- `Validate.handleValidateResult`. A stale round id is rejected before the
deferred cleanups are registered, so it changes nothing. Otherwise the body
runs and then the two defers fire in LIFO order: remove the device from the
verifying set, then reset `validateState` when the set has emptied. -/
def handleValidateResult (st : EngineState) (env : HandleEnv) (vr : ValidateResults) :
    Option (EngineState × Except String Unit) :=
  if vr.roundID ≠ st.curRoundId then some (st, .error "round id mismatch")
  else
    match handleBody st env vr with
    | none => none
    | some ws =>
      let verifying1 := st.verifying.filter fun d => d != vr.deviceID
      let mode1 := if verifying1.length = 0 then EngineMode.notStarted else st.validateState
      let st1 := { st with
        writes := st.writes ++ ws
        verifying := verifying1
        validateState := mode1 }
      some (st1, .ok ())

/-- `tmpDeviceMeta` from `validate.go`. -/
structure TmpDeviceMeta where
  deviceId : String
  nodeType : NodeType
  addr : String
  deriving DecidableEq, Repr

/-- One live node session as seen by the node manager's `Range` calls:
its device id and address. -/
structure NodeEntry where
  deviceId : String
  addr : String
  deriving DecidableEq, Repr

/-- `Validate.generatorForRandomNumber`: `max := end - start`; if
`max ≤ 0` return `start`, else `start + Intn(max)` (draw modelled by
`draw % max`). -/
def generatorForRandomNumber (start endv : Nat) (draw : Nat) : Nat :=
  if endv - start ≤ 0 then start else start + draw % (endv - start)

/-- `validatorList[generatorForRandomNumber(0, len(validatorList))]`. The
call sites guard `validatorList` nonempty, in which case the index is in
range; the `getD` default only pads the unreachable empty case. -/
def pickValidator (validatorList : List String) (draw : Nat) : String :=
  validatorList.getD (generatorForRandomNumber 0 validatorList.length draw) ""

/-- The round plan `map[string][]tmpDeviceMeta`, as an association list. -/
abbrev Plan := List (String × List TmpDeviceMeta)

/-- The Go map update inside `validateMapping`: append the meta to the
validator's list, creating the binding if absent. -/
def mapAppendMeta : Plan → String → TmpDeviceMeta → Plan
  | [], vid, tn => [(vid, [tn])]
  | (k, l) :: rest, vid, tn =>
    if k = vid then (k, l ++ [tn]) :: rest
    else (k, l) :: mapAppendMeta rest vid tn

/-- The meta built for an edge node (`nodeType = api.NodeEdge`). -/
def edgeMeta (e : NodeEntry) : TmpDeviceMeta :=
  { deviceId := e.deviceId, nodeType := NodeType.edge, addr := e.addr }

/-- The meta built for a candidate node (`nodeType = api.NodeCandidate`). -/
def candidateMeta (c : NodeEntry) : TmpDeviceMeta :=
  { deviceId := c.deviceId, nodeType := NodeType.candidate, addr := c.addr }

/-- The `EdgeNodeMap.Range` loop of `validateMapping`: every edge is
appended to a randomly picked validator's list. `i` is the iteration
index feeding the draw stream `pickE`. -/
def edgeLoop (validatorList : List String) (pickE : Nat → Nat) :
    List NodeEntry → Nat → Plan → Plan
  | [], _, m => m
  | e :: rest, i, m =>
    let vid := pickValidator validatorList (pickE i)
    edgeLoop validatorList pickE rest (i + 1) (mapAppendMeta m vid (edgeMeta e))

/-- The `CandidateNodeMap.Range` loop of `validateMapping`: a candidate
whose randomly picked validator is itself is skipped (the plan is left
unchanged); any other candidate is appended to the picked validator's
list. -/
def candidateLoop (validatorList : List String) (pickC : Nat → Nat) :
    List NodeEntry → Nat → Plan → Plan
  | [], _, m => m
  | c :: rest, i, m =>
    let vid := pickValidator validatorList (pickC i)
    if vid = c.deviceId then candidateLoop validatorList pickC rest (i + 1) m
    else candidateLoop validatorList pickC rest (i + 1) (mapAppendMeta m vid (candidateMeta c))

/-- `Validate.validateMapping`: run the edge loop then the candidate loop
over an empty plan; an empty plan is the error
"edge node and candidate node are empty". -/
def validateMapping (validatorList : List String) (edges candidates : List NodeEntry)
    (pickE pickC : Nat → Nat) : Except String Plan :=
  let m1 := edgeLoop validatorList pickE edges 0 []
  let m2 := candidateLoop validatorList pickC candidates 0 m1
  if m2.length = 0 then .error "edge node and candidate node are empty" else .ok m2

/-- Membership of a meta in a plan: some binding of validator `v` lists
`tn`. -/
def PlanMem (m : Plan) (v : String) (tn : TmpDeviceMeta) : Prop :=
  ∃ l, (v, l) ∈ m ∧ tn ∈ l

/-- `api.ReqValidate`. -/
structure ReqValidate where
  seed : Int
  nodeURL : String
  duration : Int
  roundID : Int
  nodeType : Int
  maxFid : Int
  deriving DecidableEq, Repr

/-- `int(nodeType)` for `api.NodeType`. -/
def nodeTypeInt : NodeType → Int
  | .unknown => 0
  | .edge => 1
  | .candidate => 2
  | .validatorT => 3

/-- The per-device stores `assemblyValidateReqAndStore` reads:
`CountCidOfDevice` and `GetNodeCacheFid` (`none` is a query error, which
only logs and skips the device). -/
structure AssemblyEnv where
  cidNum : String → Option Int
  nodeFid : String → Option Int

/-- One iteration of `assemblyValidateReqAndStore`: skip a device whose cid
count query fails or is `≤ 0` or whose max-fid query fails; otherwise store
its max fid, append its `ReqValidate`, add it to the verifying set and
insert its `created` row. -/
def assemblyStep (env : AssemblyEnv) (vid : String)
    (acc : EngineState × List ReqValidate) (device : TmpDeviceMeta) :
    EngineState × List ReqValidate :=
  let st := acc.1
  let reqs := acc.2
  match env.cidNum device.deviceId with
  | none => (st, reqs)
  | some num =>
    if num ≤ 0 then (st, reqs)
    else
      match env.nodeFid device.deviceId with
      | none => (st, reqs)
      | some maxFid =>
        ({ st with
            maxFidMap := assocSet st.maxFidMap device.deviceId maxFid,
            verifying := st.verifying ++ [device.deviceId],
            writes := st.writes ++
              [DBWrite.insertResult st.curRoundId device.deviceId vid ValidateStatus.create] },
         reqs ++ [{ seed := st.seed, nodeURL := device.addr, duration := st.duration,
                    roundID := st.curRoundId, nodeType := nodeTypeInt device.nodeType,
                    maxFid := maxFid }])

/-- `Validate.assemblyValidateReqAndStore` for one validator's list. -/
def assemblyValidateReqAndStore (env : AssemblyEnv) (vid : String)
    (list : List TmpDeviceMeta) (st : EngineState) : EngineState × List ReqValidate :=
  list.foldl (assemblyStep env vid) (st, [])

/-- `Validate.execute`: mark the state `starting`, clear the verifying set,
and unless the validator list is empty (a logged no-op) build the round plan
and run the per-validator assembly (the goroutines' store effects,
serialised in plan order; the RPC to each validator does not touch the
modelled state). -/
def executeRound (st : EngineState) (env : AssemblyEnv) (validatorList : List String)
    (edges candidates : List NodeEntry) (pickE pickC : Nat → Nat) :
    EngineState × Except String Unit :=
  let st1 := { st with validateState := EngineMode.starting, verifying := [] }
  if validatorList.length = 0 then (st1, .ok ())
  else
    match validateMapping validatorList edges candidates pickE pickC with
    | .error e => (st1, .error e)
    | .ok plan =>
      (plan.foldl (fun s p => (assemblyValidateReqAndStore env p.1 p.2 s).1) st1, .ok ())

/-- `Validate.checkValidateTimeOut`: every device still in the verifying
set is marked `timeout` ("time out") for `preRoundId`. -/
def checkValidateTimeOut (st : EngineState) : EngineState :=
  { st with writes := st.writes ++
      st.verifying.map fun d =>
        DBWrite.updateFail st.preRoundId d errMsgTimeOut ValidateStatus.timeOut }

/-- `Validate.startValidate`: load the previous and current round ids and
the seed, run the previous round's timeout check, then — only when the
enable flag is on — run `execute`; when the flag is off the state returns
to `notStarted` without touching the verifying set. -/
def startValidate (st : EngineState) (pre cur seedNow : Int) (env : AssemblyEnv)
    (validatorList : List String) (edges candidates : List NodeEntry)
    (pickE pickC : Nat → Nat) : EngineState × Except String Unit :=
  let st1 := { st with preRoundId := pre, curRoundId := cur, seed := seedNow }
  let st2 := checkValidateTimeOut st1
  if st2.enable = false then ({ st2 with validateState := EngineMode.notStarted }, .ok ())
  else
    match executeRound st2 env validatorList edges candidates pickE pickC with
    | (st3, .error e) => ({ st3 with validateState := EngineMode.notStarted }, .error e)
    | (st3, .ok _) => (st3, .ok ())

/-- Externally visible actions of `StartValidateOnceTask`, in program
order: schedule the cron restart after `interval` minutes, stop the cron,
run one round. -/
inductive TaskAction
  | timerRestartAfter (minutes : Int)
  | timerStop
  | runRound
  deriving DecidableEq, Repr

/-- The in-progress error message of `StartValidateOnceTask`. -/
def inProgressMsg : String := "validation in progress, cannot start again"

/-- `Validate.StartValidateOnceTask`: refuse while a round is in progress;
otherwise schedule the timer restart, enable validation, stop the timer and
run one round immediately. -/
def StartValidateOnceTask (st : EngineState) (pre cur seedNow : Int) (env : AssemblyEnv)
    (validatorList : List String) (edges candidates : List NodeEntry)
    (pickE pickC : Nat → Nat) : EngineState × List TaskAction × Except String Unit :=
  if st.validateState = EngineMode.starting then (st, [], .error inProgressMsg)
  else
    let acts := [TaskAction.timerRestartAfter st.interval, TaskAction.timerStop,
      TaskAction.runRound]
    let st1 := { st with enable := true }
    match startValidate st1 pre cur seedNow env validatorList edges candidates pickE pickC with
    | (st2, .error e) => (st2, acts, .error e)
    | (st2, .ok _) => (st2, acts, .ok ())

end Titan

namespace Titan

/-! # Theorems

## C7 — `SetAllNodeOffline` is scoped to this scheduler's server name -/

/-- C7. After `SetAllNodeOffline` with server name `s`, every row whose
`server_name` is `s` equals the original row with `is_online` set to `0`
(no other field modified), and every row with a different `server_name` is
completely unchanged; no row is added, dropped or reordered. -/
theorem c7_set_all_offline (s : String) (table : List NodeRow) :
    (SetAllNodeOffline s table).length = table.length ∧
    ∀ i r, table.get? i = some r →
      (SetAllNodeOffline s table).get? i =
        some (if r.serverName = s then { r with isOnline := 0 } else r) := by
  constructor
  · simp [SetAllNodeOffline]
  · intro i r h
    simp only [SetAllNodeOffline, List.get?_map, h, Option.map_some']

/-- Witness for C7 at a concrete two-row table: the row on server `s1` is
marked offline with all other fields kept, the row on server `s2` is
untouched. -/
theorem c7_set_all_offline_witness :
    (SetAllNodeOffline "s1"
      [⟨"d1", "t1", "g1", 1, 1, "a1", "s1", "c1"⟩,
       ⟨"d2", "t2", "g2", 2, 1, "a2", "s2", "c2"⟩]).get? 0 =
        some ⟨"d1", "t1", "g1", 1, 0, "a1", "s1", "c1"⟩ ∧
    (SetAllNodeOffline "s1"
      [⟨"d1", "t1", "g1", 1, 1, "a1", "s1", "c1"⟩,
       ⟨"d2", "t2", "g2", 2, 1, "a2", "s2", "c2"⟩]).get? 1 =
        some ⟨"d2", "t2", "g2", 2, 1, "a2", "s2", "c2"⟩ := by
  constructor
  · have h := (c7_set_all_offline "s1"
      [⟨"d1", "t1", "g1", 1, 1, "a1", "s1", "c1"⟩,
       ⟨"d2", "t2", "g2", 2, 1, "a2", "s2", "c2"⟩]).2 0
      ⟨"d1", "t1", "g1", 1, 1, "a1", "s1", "c1"⟩ rfl
    simpa using h
  · have h := (c7_set_all_offline "s1"
      [⟨"d1", "t1", "g1", 1, 1, "a1", "s1", "c1"⟩,
       ⟨"d2", "t2", "g2", 2, 1, "a2", "s2", "c2"⟩]).2 1
      ⟨"d2", "t2", "g2", 2, 1, "a2", "s2", "c2"⟩ rfl
    simpa using h

/-! ## C8 — `ReplaceArea` and the per-region table names -/

/-- Replacing dashes after a character-wise map is the single
character-wise pass. -/
theorem replaceAll_map (f : Char → Char) (s : List Char) :
    replaceAll '-' '_' (s.map f) = s.map fun c => if f c = '-' then '_' else f c := by
  induction s with
  | nil => rfl
  | cons c cs ih => simp [replaceAll, ih]

/-- Interpolating into `deviceBlockTable` appends the argument to the fixed
stem. -/
theorem sprintf1_deviceBlockTable (arg : List Char) :
    sprintf1 deviceBlockTable arg = "device_blocks_".toList ++ arg := by
  have h : sprintf1 deviceBlockTable arg = "device_blocks_".toList ++ (arg ++ []) := rfl
  simpa using h

/-- Interpolating into `dataInfoTable` appends the argument to the fixed
stem. -/
theorem sprintf1_dataInfoTable (arg : List Char) :
    sprintf1 dataInfoTable arg = "data_info_".toList ++ arg := by
  have h : sprintf1 dataInfoTable arg = "data_info_".toList ++ (arg ++ []) := rfl
  simpa using h

/-- C8. For every region string, `ReplaceArea` computes exactly the region
lowercased with every `-` of the lowercased string replaced by `_`, and the
per-node block table (`device_blocks_%s`) and per-carfile table
(`data_info_%s`) names are exactly the fixed stems with that suffix
interpolated. -/
theorem c8_replace_area_tables (region : List Char) :
    ReplaceArea region = specRegionSuffix region ∧
    sprintf1 deviceBlockTable (ReplaceArea region) =
      "device_blocks_".toList ++ specRegionSuffix region ∧
    sprintf1 dataInfoTable (ReplaceArea region) =
      "data_info_".toList ++ specRegionSuffix region := by
  have h : ReplaceArea region = specRegionSuffix region := by
    simpa [ReplaceArea, specRegionSuffix] using replaceAll_map charToLower region
  refine ⟨h, ?_, ?_⟩
  · rw [sprintf1_deviceBlockTable, h]
  · rw [sprintf1_dataInfoTable, h]

/-! ## C10 — `AllocateNodes` bounds and error policy -/

/-- The allocation loop never returns more records than its iteration
count. -/
theorem allocateLoop_length_le (allocate : Nat → Except String NodeAllocateInfo) :
    ∀ steps i, (allocateLoop allocate steps i).length ≤ steps := by
  intro steps
  induction steps with
  | zero => intro i; simp [allocateLoop]
  | succ n ih =>
    intro i
    cases h : allocate i with
    | error e => simpa [allocateLoop, h] using Nat.le_succ_of_le (ih (i + 1))
    | ok info => simpa [allocateLoop, h] using ih (i + 1)

/-- C10. `AllocateNodes` returns the empty list and no error for every
`count ≤ 0` or `count > 10`; for every `count` in `[1, 10]` it returns at
most `count` allocation records and no error, whatever the individual
allocation results are (failed allocations are skipped, never surfaced). -/
theorem c10_allocate_nodes (allocate : Nat → Except String NodeAllocateInfo) (count : Int) :
    (count ≤ 0 ∨ count > 10 → AllocateNodes allocate count = ([], none)) ∧
    (1 ≤ count → count ≤ 10 →
      (AllocateNodes allocate count).1.length ≤ count.toNat ∧
      (AllocateNodes allocate count).2 = none) := by
  constructor
  · intro h
    simp [AllocateNodes, h]
  · intro h1 h2
    have hc : ¬(count ≤ 0 ∨ count > 10) := by omega
    refine ⟨?_, ?_⟩
    · simpa only [AllocateNodes, hc, if_false] using
        allocateLoop_length_le allocate count.toNat 0
    · simp only [AllocateNodes, hc, if_false]

/-- Witness for C10 at `count = 3` with the middle allocation failing: two
records come back, below the bound `3`, and no error. -/
theorem c10_allocate_nodes_witness :
    (AllocateNodes
      (fun i => if i = 1 then Except.error "boom" else Except.ok ⟨"d", "s", 1⟩) 3).1.length ≤ 3 ∧
    (AllocateNodes
      (fun i => if i = 1 then Except.error "boom" else Except.ok ⟨"d", "s", 1⟩) 3).2 = none := by
  have h := (c10_allocate_nodes
    (fun i => if i = 1 then Except.error "boom" else Except.ok ⟨"d", "s", 1⟩) 3).2
    (by norm_num) (by norm_num)
  simpa using h

/-! ## C4 — a stale round id is rejected without any state change -/

/-- C4. A validate result whose round id differs from the engine's current
round id makes `handleValidateResult` return the round-mismatch error with
the state exactly as it was: no `validate_result` row written, no removal
from the verifying set, the validate state untouched. -/
theorem c4_round_mismatch_no_state_change (st : EngineState) (env : HandleEnv)
    (vr : ValidateResults) (h : vr.roundID ≠ st.curRoundId) :
    handleValidateResult st env vr = some (st, .error "round id mismatch") := by
  simp [handleValidateResult, h]

/-- Witness for C4: a result for round 2 against an engine in round 1 is
rejected and the state (including its verifying set and write log) is
returned unchanged. -/
theorem c4_round_mismatch_no_state_change_witness :
    handleValidateResult
      ⟨0, 1, 42, 10, 5, true, EngineMode.starting, ["d"], [("d", 3)], []⟩
      ⟨fun _ => Except.ok [], fun _ => 0, fun _ => none⟩
      ⟨2, "d", ["c1"], 1, 0, 0, false, false⟩ =
      some (⟨0, 1, 42, 10, 5, true, EngineMode.starting, ["d"], [("d", 3)], []⟩,
        .error "round id mismatch") :=
  c4_round_mismatch_no_state_change
    ⟨0, 1, 42, 10, 5, true, EngineMode.starting, ["d"], [("d", 3)], []⟩
    ⟨fun _ => Except.ok [], fun _ => 0, fun _ => none⟩
    ⟨2, "d", ["c1"], 1, 0, 0, false, false⟩ (by norm_num)

/-! ## C5 — a cancelled result is always recorded `cancelled`, never `fail` -/

/-- C5. A validate result with `is_cancel` set and a matching round id is
always recorded as the terminal status `cancelled` with the cancellation
message — whatever its cids, random count, timeout flag or any other field
— and then the device leaves the verifying set; no `fail` row is ever
written for it. -/
theorem c5_cancel_terminal (st : EngineState) (env : HandleEnv) (vr : ValidateResults)
    (hround : vr.roundID = st.curRoundId) (hc : vr.isCancel = true) :
    handleValidateResult st env vr =
      some ({ st with
        writes := st.writes ++
          [DBWrite.updateFail vr.roundID vr.deviceID errMsgCancel ValidateStatus.cancel]
        verifying := st.verifying.filter fun d => d != vr.deviceID
        validateState :=
          if (st.verifying.filter fun d => d != vr.deviceID).length = 0 then
            EngineMode.notStarted
          else st.validateState }, .ok ()) := by
  simp [handleValidateResult, handleBody, hround, hc]

/-- Witness for C5: a cancelled result whose every other field screams
failure (timeout flag set, no cids, negative random count) is still
recorded `cancelled` with the cancellation message, and the device is
removed from the verifying set. -/
theorem c5_cancel_terminal_witness :
    handleValidateResult
      ⟨0, 1, 42, 10, 5, true, EngineMode.starting, ["d", "e"], [], []⟩
      ⟨fun _ => Except.ok [], fun _ => 0, fun _ => none⟩
      ⟨1, "d", [], -5, 0, 0, true, true⟩ =
      some (⟨0, 1, 42, 10, 5, true, EngineMode.starting, ["e"], [],
        [DBWrite.updateFail 1 "d" errMsgCancel ValidateStatus.cancel]⟩, .ok ()) := by
  have h := c5_cancel_terminal
    ⟨0, 1, 42, 10, 5, true, EngineMode.starting, ["d", "e"], [], []⟩
    ⟨fun _ => Except.ok [], fun _ => 0, fun _ => none⟩
    ⟨1, "d", [], -5, 0, 0, true, true⟩ rfl rfl
  simpa using h

/-! ## C1 — a round whose every draw is skipped -/

/-- If every remaining draw hits a missing fid entry and the remaining
indices stay inside `cids`, the scoring loop returns `ok`. -/
theorem scoreLoop_skip_all (cids : List String) (infos : List (Int × String)) (maxFid : Int)
    (r : Nat → Nat) (cidHash : String → Option String) :
    ∀ steps index, index + steps ≤ cids.length →
      (∀ k, index ≤ k → k < index + steps →
        intMapRead infos (getRandNum maxFid r k + 1) = "") →
      scoreLoop cids infos maxFid r cidHash steps index = some .ok := by
  intro steps
  induction steps with
  | zero => intro index _ _; rfl
  | succ n ih =>
    intro index hlen hskip
    have hidx : index < cids.length := by omega
    have hget : cids.get? index = some (cids.get ⟨index, hidx⟩) := List.get?_eq_get hidx
    have hsk := hskip index (le_refl _) (by omega)
    simp only [scoreLoop, hget, hsk, if_true]
    exact ih (index + 1) (by omega) fun k hk1 hk2 => hskip k (by omega) (by omega)

/-- Counterexample to C1 as stated. Concrete run: round id matches, the
node's fid→cid map is the non-empty `[(2, "c")]`, `random_count = 1`, and
the single draw is fid `1`, which maps to no entry — so every draw is
skipped. `handleValidateResult` records terminal `success` with message
"ok"; it does not record `fail`, and the message "no cids checked" exists
nowhere in the code. -/
theorem c1_no_cids_checked_counterexample :
    handleValidateResult
      ⟨0, 1, 42, 10, 5, true, EngineMode.starting, ["d"], [("d", 1)], []⟩
      ⟨fun _ => Except.ok [(2, "c")], fun _ => 0, fun _ => none⟩
      ⟨1, "d", ["a"], 1, 0, 0, false, false⟩ =
      some (⟨0, 1, 42, 10, 5, true, EngineMode.notStarted, [], [("d", 1)],
        [DBWrite.updateSuccess 1 "d" 1 "ok" ValidateStatus.success 0 0]⟩, .ok ()) ∧
    intMapRead [(2, "c")] (getRandNum 1 (fun _ => 0) 0 + 1) = "" := by
  constructor <;> rfl

/-- C1 amended: a skipped draw is never counted as a mismatch, and a result
whose every draw is skipped (each drawn fid maps to no entry of the
audited node's non-empty fid→cid map) is recorded as terminal `success`
with message "ok" — not as `fail` "no cids checked". The bound
`random_count ≤ len(cids)` keeps the loop inside `cids`. -/
theorem c1_all_draws_skipped_amended (st : EngineState) (env : HandleEnv)
    (vr : ValidateResults) (infos : List (Int × String)) (maxFid : Int)
    (hround : vr.roundID = st.curRoundId)
    (hcancel : vr.isCancel = false) (htimeout : vr.isTimeout = false)
    (hcids : vr.cids ≠ []) (hrc : 0 < vr.randomCount)
    (hlen : vr.randomCount.toNat ≤ vr.cids.length)
    (hbf : env.blocksFid vr.deviceID = Except.ok infos) (hinfos : infos ≠ [])
    (hmf : assocGet? st.maxFidMap vr.deviceID = some maxFid)
    (hskip : ∀ k < vr.randomCount.toNat,
      intMapRead infos (getRandNum maxFid env.r k + 1) = "") :
    handleValidateResult st env vr =
      some ({ st with
        writes := st.writes ++ [DBWrite.updateSuccess vr.roundID vr.deviceID
          (vr.cids.length : Int) "ok" ValidateStatus.success vr.bandwidth vr.costTime]
        verifying := st.verifying.filter fun d => d != vr.deviceID
        validateState :=
          if (st.verifying.filter fun d => d != vr.deviceID).length = 0 then
            EngineMode.notStarted
          else st.validateState }, .ok ()) := by
  have hscore := scoreLoop_skip_all vr.cids infos maxFid env.r env.cidHash
    vr.randomCount.toNat 0 (by omega) (fun k hk1 hk2 => hskip k (by omega))
  have hrcle : ¬vr.randomCount ≤ 0 := not_le.mpr hrc
  simp [handleValidateResult, handleBody, hround, hcancel, htimeout, hcids, hrcle,
    hbf, hinfos, hmf, hscore]

/-- Witness for the amended C1: a concrete all-skipped run is recorded
`success` "ok". -/
theorem c1_all_draws_skipped_amended_witness :
    handleValidateResult
      ⟨0, 7, 9, 10, 5, true, EngineMode.notStarted, ["x", "d"], [("d", 2)], []⟩
      ⟨fun _ => Except.ok [(5, "x")], fun _ => 1, fun _ => none⟩
      ⟨7, "d", ["a"], 1, 3, 4, false, false⟩ =
      some (⟨0, 7, 9, 10, 5, true, EngineMode.notStarted, ["x"], [("d", 2)],
        [DBWrite.updateSuccess 7 "d" 1 "ok" ValidateStatus.success 3 4]⟩, .ok ()) := by
  have h := c1_all_draws_skipped_amended
    ⟨0, 7, 9, 10, 5, true, EngineMode.notStarted, ["x", "d"], [("d", 2)], []⟩
    ⟨fun _ => Except.ok [(5, "x")], fun _ => 1, fun _ => none⟩
    ⟨7, "d", ["a"], 1, 3, 4, false, false⟩ [(5, "x")] 2
    rfl rfl rfl (by decide) (by decide) (by decide) rfl (by decide) rfl
    (by intro k hk
        have hk1 : k < 1 := by simpa using hk
        have hk0 : k = 0 := by omega
        subst hk0
        rfl)
  simpa using h

/-! ## C9 — did the scoring loop always index `cids` out of bounds? -/

/-- If no iteration below `len(cids)` reports a mismatch (each drawn fid is
missing or its CID hash-matches) and the remaining iteration budget crosses
`len(cids)`, the scoring loop reaches the out-of-range read — a Go panic,
modelled `none`. -/
theorem scoreLoop_reaches_oob (cids : List String) (infos : List (Int × String))
    (maxFid : Int) (r : Nat → Nat) (cidHash : String → Option String) :
    ∀ steps index, cids.length < index + steps → index ≤ cids.length →
      (∀ k (hkl : k < cids.length), index ≤ k →
        intMapRead infos (getRandNum maxFid r k + 1) = "" ∨
        compareCid cidHash (intMapRead infos (getRandNum maxFid r k + 1))
          (cids.get ⟨k, hkl⟩) = true) →
      scoreLoop cids infos maxFid r cidHash steps index = none := by
  intro steps
  induction steps with
  | zero => intro index h1 h2 _; exact absurd h2 (by omega)
  | succ n ih =>
    intro index h1 h2 hk
    by_cases hidx : index < cids.length
    · have hget : cids.get? index = some (cids.get ⟨index, hidx⟩) := List.get?_eq_get hidx
      have hrec := ih (index + 1) (by omega) (by omega)
        (fun k hkl a => hk k hkl (by omega))
      simp only [scoreLoop, hget]
      by_cases hempty : intMapRead infos (getRandNum maxFid r index + 1) = ""
      · rw [if_pos hempty]
        exact hrec
      · rw [if_neg hempty]
        rcases hk index hidx (le_refl _) with hsk | hmat
        · exact absurd hsk hempty
        · rw [if_pos hmat]
          exact hrec
    · have hget : cids.get? index = none := by
        rw [List.get?_eq_none]
        omega
      simp only [scoreLoop, hget]

/-- Counterexample to C9 as stated. Concrete run with
`0 < len(cids) = 1 < random_count = 2` and the non-empty fid map
`[(1, "y")]`: the very first iteration draws fid `1`, finds the entry
`"y"`, and the CID comparison fails — the loop returns terminal `fail` at
index 0 and never performs an out-of-range read of `cids`. -/
theorem c9_oob_counterexample :
    handleValidateResult
      ⟨0, 1, 42, 10, 5, true, EngineMode.starting, ["d"], [("d", 1)], []⟩
      ⟨fun _ => Except.ok [(1, "y")], fun _ => 0, fun _ => none⟩
      ⟨1, "d", ["x"], 2, 0, 0, false, false⟩ =
      some (⟨0, 1, 42, 10, 5, true, EngineMode.notStarted, [], [("d", 1)],
        [DBWrite.updateFail 1 "d" (mismatchMsg "x" "y" 1 0) ValidateStatus.fail]⟩,
        .ok ()) := by
  rfl

/-- C9 amended: the scoring loop reads `cids[index]` for every index it
reaches, so it is total only under `random_count ≤ len(cids)` — for every
result with `0 < len(cids) < random_count`, a non-empty fid map and no CID
mismatch among the first `len(cids)` iterations (each drawn fid missing or
hash-matching), the iteration at index `len(cids)` reads `cids` out of
bounds: a Go runtime panic. -/
theorem c9_oob_amended (st : EngineState) (env : HandleEnv)
    (vr : ValidateResults) (infos : List (Int × String)) (maxFid : Int)
    (hround : vr.roundID = st.curRoundId)
    (hcancel : vr.isCancel = false) (htimeout : vr.isTimeout = false)
    (hcids : vr.cids ≠ [])
    (hlen : vr.cids.length < vr.randomCount.toNat)
    (hbf : env.blocksFid vr.deviceID = Except.ok infos) (hinfos : infos ≠ [])
    (hmf : assocGet? st.maxFidMap vr.deviceID = some maxFid)
    (hnomis : ∀ k (hkl : k < vr.cids.length),
      intMapRead infos (getRandNum maxFid env.r k + 1) = "" ∨
      compareCid env.cidHash (intMapRead infos (getRandNum maxFid env.r k + 1))
        (vr.cids.get ⟨k, hkl⟩) = true) :
    handleValidateResult st env vr = none := by
  have hscore := scoreLoop_reaches_oob vr.cids infos maxFid env.r env.cidHash
    vr.randomCount.toNat 0 (by omega) (by omega) (fun k hkl _ => hnomis k hkl)
  have hlpos : 0 < vr.cids.length := List.length_pos.mpr hcids
  have hrc : 0 < vr.randomCount := by omega
  have hrcle : ¬vr.randomCount ≤ 0 := not_le.mpr hrc
  simp [handleValidateResult, handleBody, hround, hcancel, htimeout, hcids, hrcle,
    hbf, hinfos, hmf, hscore]

/-- Witness for the amended C9: with `cids = ["a"]`, `random_count = 2` and
the draw at index 0 skipped, the handler hits the out-of-range read
(modelled `none`). -/
theorem c9_oob_amended_witness :
    handleValidateResult
      ⟨0, 1, 42, 10, 5, true, EngineMode.starting, ["d"], [("d", 1)], []⟩
      ⟨fun _ => Except.ok [(5, "x")], fun _ => 0, fun _ => none⟩
      ⟨1, "d", ["a"], 2, 0, 0, false, false⟩ = none := by
  have h := c9_oob_amended
    ⟨0, 1, 42, 10, 5, true, EngineMode.starting, ["d"], [("d", 1)], []⟩
    ⟨fun _ => Except.ok [(5, "x")], fun _ => 0, fun _ => none⟩
    ⟨1, "d", ["a"], 2, 0, 0, false, false⟩ [(5, "x")] 1
    rfl rfl rfl (by decide) (by decide) rfl (by decide) rfl
    (by intro k hk
        have hk1 : k < 1 := by simpa using hk
        have hk0 : k = 0 := by omega
        subst hk0
        left
        rfl)
  simpa using h

/-! ## C2 — no candidate audits itself; self-picks are dropped; edges all
assigned -/

/-- Nothing is a member of the empty plan. -/
theorem planMem_nil (v : String) (tn : TmpDeviceMeta) : ¬PlanMem [] v tn := by
  rintro ⟨l, hl, _⟩
  exact absurd hl (List.not_mem_nil _)

/-- Membership in a plan with a leading binding. -/
theorem planMem_cons (k : String) (l : List TmpDeviceMeta) (rest : Plan)
    (v : String) (tn : TmpDeviceMeta) :
    PlanMem ((k, l) :: rest) v tn ↔ (v = k ∧ tn ∈ l) ∨ PlanMem rest v tn := by
  constructor
  · rintro ⟨l', hl', htn⟩
    rcases List.mem_cons.mp hl' with h | h
    · injection h with h1 h2
      subst h1
      subst h2
      exact Or.inl ⟨rfl, htn⟩
    · exact Or.inr ⟨l', h, htn⟩
  · rintro (⟨hv, htn⟩ | ⟨l', hl', htn⟩)
    · subst hv
      exact ⟨l, List.mem_cons_self _ _, htn⟩
    · exact ⟨l', List.mem_cons_of_mem _ hl', htn⟩

/-- The Go map append adds exactly one membership. -/
theorem planMem_mapAppendMeta (vid : String) (tn : TmpDeviceMeta)
    (v : String) (tn' : TmpDeviceMeta) (m : Plan) :
    PlanMem (mapAppendMeta m vid tn) v tn' ↔
      PlanMem m v tn' ∨ (v = vid ∧ tn' = tn) := by
  induction m with
  | nil =>
    simp [mapAppendMeta, planMem_cons, planMem_nil]
  | cons kl rest ih =>
    obtain ⟨k, l⟩ := kl
    by_cases hk : k = vid
    · subst hk
      have hred : mapAppendMeta ((k, l) :: rest) k tn = (k, l ++ [tn]) :: rest := by
        simp [mapAppendMeta]
      rw [hred]
      simp only [planMem_cons, List.mem_append, List.mem_singleton]
      tauto
    · simp only [mapAppendMeta, if_neg hk, planMem_cons, ih]
      tauto

/-- The edge loop only grows the plan. -/
theorem planMem_edgeLoop_mono (vl : List String) (p : Nat → Nat) :
    ∀ (es : List NodeEntry) (i : Nat) (m : Plan) (v : String) (tn : TmpDeviceMeta),
      PlanMem m v tn → PlanMem (edgeLoop vl p es i m) v tn := by
  intro es
  induction es with
  | nil => intro i m v tn h; simpa [edgeLoop] using h
  | cons e rest ih =>
    intro i m v tn h
    simp only [edgeLoop]
    exact ih (i + 1) _ v tn ((planMem_mapAppendMeta _ _ _ _ m).mpr (Or.inl h))

/-- The candidate loop only grows the plan. -/
theorem planMem_candidateLoop_mono (vl : List String) (p : Nat → Nat) :
    ∀ (cs : List NodeEntry) (i : Nat) (m : Plan) (v : String) (tn : TmpDeviceMeta),
      PlanMem m v tn → PlanMem (candidateLoop vl p cs i m) v tn := by
  intro cs
  induction cs with
  | nil => intro i m v tn h; simpa [candidateLoop] using h
  | cons c rest ih =>
    intro i m v tn h
    simp only [candidateLoop]
    split
    · exact ih (i + 1) m v tn h
    · exact ih (i + 1) _ v tn ((planMem_mapAppendMeta _ _ _ _ m).mpr (Or.inl h))

/-- The edge loop preserves "no candidate meta is filed under its own
device id" (it only adds edge metas). -/
theorem noSelf_edgeLoop (vl : List String) (p : Nat → Nat) :
    ∀ (es : List NodeEntry) (i : Nat) (m : Plan),
      (∀ v tn, PlanMem m v tn → tn.nodeType = NodeType.candidate → tn.deviceId ≠ v) →
      ∀ v tn, PlanMem (edgeLoop vl p es i m) v tn →
        tn.nodeType = NodeType.candidate → tn.deviceId ≠ v := by
  intro es
  induction es with
  | nil =>
    intro i m hm v tn h
    exact hm v tn (by simpa [edgeLoop] using h)
  | cons e rest ih =>
    intro i m hm
    simp only [edgeLoop]
    apply ih (i + 1)
    intro v tn hmem hcand
    rcases (planMem_mapAppendMeta _ _ _ _ m).mp hmem with h | ⟨hv, htn⟩
    · exact hm v tn h hcand
    · subst htn
      simp [edgeMeta] at hcand

/-- The candidate loop preserves "no candidate meta is filed under its own
device id": a candidate is only appended under a validator that differs
from its device id. -/
theorem noSelf_candidateLoop (vl : List String) (p : Nat → Nat) :
    ∀ (cs : List NodeEntry) (i : Nat) (m : Plan),
      (∀ v tn, PlanMem m v tn → tn.nodeType = NodeType.candidate → tn.deviceId ≠ v) →
      ∀ v tn, PlanMem (candidateLoop vl p cs i m) v tn →
        tn.nodeType = NodeType.candidate → tn.deviceId ≠ v := by
  intro cs
  induction cs with
  | nil =>
    intro i m hm v tn h
    exact hm v tn (by simpa [candidateLoop] using h)
  | cons c rest ih =>
    intro i m hm
    simp only [candidateLoop]
    split
    · exact ih (i + 1) m hm
    · rename_i hnself
      apply ih (i + 1)
      intro v tn hmem hcand
      rcases (planMem_mapAppendMeta _ _ _ _ m).mp hmem with h | ⟨hv, htn⟩
      · exact hm v tn h hcand
      · subst htn
        subst hv
        simpa [candidateMeta] using Ne.symm hnself

/-- Every edge processed by the edge loop ends up assigned to some
validator. -/
theorem edge_assigned_edgeLoop (vl : List String) (p : Nat → Nat) :
    ∀ (es : List NodeEntry) (i : Nat) (m : Plan),
      ∀ e ∈ es, ∃ v, PlanMem (edgeLoop vl p es i m) v (edgeMeta e) := by
  intro es
  induction es with
  | nil => intro i m e he; exact absurd he (List.not_mem_nil _)
  | cons e0 rest ih =>
    intro i m e he
    rcases List.mem_cons.mp he with rfl | h
    · refine ⟨pickValidator vl (p i), ?_⟩
      simp only [edgeLoop]
      exact planMem_edgeLoop_mono vl p rest (i + 1) _ _ _
        ((planMem_mapAppendMeta _ _ _ _ m).mpr (Or.inr ⟨rfl, rfl⟩))
    · simp only [edgeLoop]
      exact ih (i + 1) _ e h

/-- C2. In every successfully built round plan: (1) no meta with node type
`candidate` is ever filed under its own device id — a candidate never
audits itself; (2) every online edge node is assigned to some validator;
(3) a candidate whose randomly picked validator is itself is silently
dropped — the plan is left exactly as it was, with no reassignment. -/
theorem c2_validate_mapping_no_self (vl : List String) (es cs : List NodeEntry)
    (pE pC : Nat → Nat) (plan : Plan)
    (hok : validateMapping vl es cs pE pC = Except.ok plan) :
    (∀ v tn, PlanMem plan v tn → tn.nodeType = NodeType.candidate → tn.deviceId ≠ v) ∧
    (∀ e ∈ es, ∃ v, PlanMem plan v (edgeMeta e)) ∧
    (∀ (c : NodeEntry) (rest : List NodeEntry) (i : Nat) (m : Plan),
      pickValidator vl (pC i) = c.deviceId →
      candidateLoop vl pC (c :: rest) i m = candidateLoop vl pC rest (i + 1) m) := by
  have hplan : plan = candidateLoop vl pC cs 0 (edgeLoop vl pE es 0 []) := by
    simp only [validateMapping] at hok
    by_cases h : (candidateLoop vl pC cs 0 (edgeLoop vl pE es 0 [])).length = 0
    · rw [if_pos h] at hok
      cases hok
    · rw [if_neg h] at hok
      injection hok with h'
      exact h'.symm
  subst hplan
  refine ⟨?_, ?_, ?_⟩
  · exact noSelf_candidateLoop vl pC cs 0 _
      (noSelf_edgeLoop vl pE es 0 []
        (fun v tn h => absurd h (planMem_nil v tn)))
  · intro e he
    obtain ⟨v, hv⟩ := edge_assigned_edgeLoop vl pE es 0 [] e he
    exact ⟨v, planMem_candidateLoop_mono vl pC cs 0 _ v _ hv⟩
  · intro c rest i m hself
    simp [candidateLoop, hself]

/-- Witness for C2, the spec's own scenario: validators `["c1", "c2"]`, one
edge `e1`, one candidate `c1`, and a draw stream that always picks index 0.
The plan assigns `e1` to `"c1"` and drops candidate `c1`'s self-pick
without reassigning it. -/
theorem c2_validate_mapping_no_self_witness :
    (∃ v, PlanMem [("c1", [edgeMeta ⟨"e1", "a1"⟩])] v (edgeMeta ⟨"e1", "a1"⟩)) ∧
    candidateLoop ["c1", "c2"] (fun _ => 0) [⟨"c1", "a2"⟩] 0
        [("c1", [edgeMeta ⟨"e1", "a1"⟩])] =
      candidateLoop ["c1", "c2"] (fun _ => 0) [] 1 [("c1", [edgeMeta ⟨"e1", "a1"⟩])] := by
  have h := c2_validate_mapping_no_self ["c1", "c2"] [⟨"e1", "a1"⟩] [⟨"c1", "a2"⟩]
    (fun _ => 0) (fun _ => 0) [("c1", [edgeMeta ⟨"e1", "a1"⟩])] rfl
  exact ⟨h.2.1 ⟨"e1", "a1"⟩ (by simp),
    h.2.2 ⟨"c1", "a2"⟩ [] 0 [("c1", [edgeMeta ⟨"e1", "a1"⟩])] rfl⟩

/-! ## C3 — preflight timeout marking and the verifying set -/

/-- One assembly step keeps the current round id, only appends to the write
log, and keeps every verifying device paired with a `created` row for the
given round. -/
theorem assemblyStep_preserves (env : AssemblyEnv) (vid : String)
    (acc : EngineState × List ReqValidate) (device : TmpDeviceMeta) (cur : Int)
    (hcur : acc.1.curRoundId = cur)
    (hinv : ∀ d ∈ acc.1.verifying,
      ∃ w, DBWrite.insertResult cur d w ValidateStatus.create ∈ acc.1.writes) :
    (assemblyStep env vid acc device).1.curRoundId = cur ∧
    (∃ t, (assemblyStep env vid acc device).1.writes = acc.1.writes ++ t) ∧
    (∀ d ∈ (assemblyStep env vid acc device).1.verifying,
      ∃ w, DBWrite.insertResult cur d w ValidateStatus.create ∈
        (assemblyStep env vid acc device).1.writes) := by
  unfold assemblyStep
  cases h1 : env.cidNum device.deviceId with
  | none => exact ⟨hcur, ⟨[], (List.append_nil _).symm⟩, hinv⟩
  | some num =>
    by_cases h2 : num ≤ 0
    · simp only [if_pos h2]
      exact ⟨hcur, ⟨[], (List.append_nil _).symm⟩, hinv⟩
    · simp only [if_neg h2]
      cases h3 : env.nodeFid device.deviceId with
      | none => exact ⟨hcur, ⟨[], (List.append_nil _).symm⟩, hinv⟩
      | some maxFid =>
        refine ⟨hcur, ⟨_, rfl⟩, ?_⟩
        intro d hd
        rcases List.mem_append.mp hd with hold | hnew
        · obtain ⟨w, hw⟩ := hinv d hold
          exact ⟨w, List.mem_append_left _ hw⟩
        · have hdd : d = device.deviceId := by simpa using hnew
          subst hdd
          exact ⟨vid, by simp [hcur]⟩

/-- The per-validator assembly fold keeps the current round id, only
appends to the write log, and keeps every verifying device paired with a
`created` row for the round. -/
theorem assemblyFold_preserves (env : AssemblyEnv) (vid : String) :
    ∀ (list : List TmpDeviceMeta) (acc : EngineState × List ReqValidate) (cur : Int),
      acc.1.curRoundId = cur →
      (∀ d ∈ acc.1.verifying,
        ∃ w, DBWrite.insertResult cur d w ValidateStatus.create ∈ acc.1.writes) →
      (list.foldl (assemblyStep env vid) acc).1.curRoundId = cur ∧
      (∃ t, (list.foldl (assemblyStep env vid) acc).1.writes = acc.1.writes ++ t) ∧
      (∀ d ∈ (list.foldl (assemblyStep env vid) acc).1.verifying,
        ∃ w, DBWrite.insertResult cur d w ValidateStatus.create ∈
          (list.foldl (assemblyStep env vid) acc).1.writes) := by
  intro list
  induction list with
  | nil =>
    intro acc cur hcur hinv
    exact ⟨hcur, ⟨[], (List.append_nil _).symm⟩, hinv⟩
  | cons device rest ih =>
    intro acc cur hcur hinv
    obtain ⟨hc1, ⟨t1, ht1⟩, hi1⟩ := assemblyStep_preserves env vid acc device cur hcur hinv
    obtain ⟨hc2, ⟨t2, ht2⟩, hi2⟩ :=
      ih (assemblyStep env vid acc device) cur hc1 hi1
    refine ⟨by simpa using hc2, ⟨t1 ++ t2, ?_⟩, by simpa using hi2⟩
    simp only [List.foldl_cons, ht2, ht1, List.append_assoc]

/-- The plan fold of `execute` keeps the current round id, only appends to
the write log, and keeps every verifying device paired with a `created` row
for the round. -/
theorem planFold_preserves (env : AssemblyEnv) :
    ∀ (plan : Plan) (st : EngineState) (cur : Int),
      st.curRoundId = cur →
      (∀ d ∈ st.verifying,
        ∃ w, DBWrite.insertResult cur d w ValidateStatus.create ∈ st.writes) →
      (plan.foldl (fun s p => (assemblyValidateReqAndStore env p.1 p.2 s).1) st).curRoundId
          = cur ∧
      (∃ t, (plan.foldl (fun s p => (assemblyValidateReqAndStore env p.1 p.2 s).1) st).writes
          = st.writes ++ t) ∧
      (∀ d ∈ (plan.foldl (fun s p => (assemblyValidateReqAndStore env p.1 p.2 s).1) st).verifying,
        ∃ w, DBWrite.insertResult cur d w ValidateStatus.create ∈
          (plan.foldl (fun s p => (assemblyValidateReqAndStore env p.1 p.2 s).1) st).writes) := by
  intro plan
  induction plan with
  | nil =>
    intro st cur hcur hinv
    exact ⟨hcur, ⟨[], (List.append_nil _).symm⟩, hinv⟩
  | cons p rest ih =>
    intro st cur hcur hinv
    obtain ⟨hc1, ⟨t1, ht1⟩, hi1⟩ :=
      assemblyFold_preserves env p.1 p.2 (st, []) cur hcur hinv
    obtain ⟨hc2, ⟨t2, ht2⟩, hi2⟩ :=
      ih (assemblyValidateReqAndStore env p.1 p.2 st).1 cur hc1 hi1
    refine ⟨by simpa using hc2, ⟨t1 ++ t2, ?_⟩, by simpa using hi2⟩
    have hmid : (assemblyValidateReqAndStore env p.1 p.2 st).1.writes = st.writes ++ t1 := ht1
    simp only [List.foldl_cons, ht2, hmid, List.append_assoc]

/-- `execute` keeps the current round id, only appends to the write log,
and leaves a verifying set whose every device has a `created` row for the
current round. -/
theorem executeRound_props (st : EngineState) (env : AssemblyEnv) (vl : List String)
    (es cs : List NodeEntry) (pE pC : Nat → Nat) :
    (executeRound st env vl es cs pE pC).1.curRoundId = st.curRoundId ∧
    (∃ t, (executeRound st env vl es cs pE pC).1.writes = st.writes ++ t) ∧
    (∀ d ∈ (executeRound st env vl es cs pE pC).1.verifying,
      ∃ w, DBWrite.insertResult st.curRoundId d w ValidateStatus.create ∈
        (executeRound st env vl es cs pE pC).1.writes) := by
  unfold executeRound
  by_cases hvl : vl.length = 0
  · simp only [if_pos hvl]
    refine ⟨by simp, ⟨[], by simp⟩, by simp⟩
  · simp only [if_neg hvl]
    cases hm : validateMapping vl es cs pE pC with
    | error e =>
      refine ⟨by simp, ⟨[], by simp⟩, by simp⟩
    | ok plan =>
      have h := planFold_preserves env plan
        { st with validateState := EngineMode.starting, verifying := [] }
        st.curRoundId rfl (by simp)
      exact h

/-- On the disabled path, `startValidate` only records the previous round's
timeouts and resets the state: the verifying set is left as it was. -/
theorem startValidate_disabled (st : EngineState) (pre cur seedNow : Int)
    (env : AssemblyEnv) (vl : List String) (es cs : List NodeEntry)
    (pE pC : Nat → Nat) (hen : st.enable = false) :
    startValidate st pre cur seedNow env vl es cs pE pC =
      ({ checkValidateTimeOut
          { st with preRoundId := pre, curRoundId := cur, seed := seedNow } with
        validateState := EngineMode.notStarted }, Except.ok ()) := by
  unfold startValidate
  rw [if_pos (by simp [checkValidateTimeOut, hen])]

/-- On the enabled path, the state `startValidate` returns carries exactly
the write log and verifying set produced by `execute` after the timeout
marking. -/
theorem startValidate_enabled_fields (st : EngineState) (pre cur seedNow : Int)
    (env : AssemblyEnv) (vl : List String) (es cs : List NodeEntry)
    (pE pC : Nat → Nat) (hen : st.enable = true) :
    (startValidate st pre cur seedNow env vl es cs pE pC).1.writes =
      (executeRound (checkValidateTimeOut
        { st with preRoundId := pre, curRoundId := cur, seed := seedNow })
        env vl es cs pE pC).1.writes ∧
    (startValidate st pre cur seedNow env vl es cs pE pC).1.verifying =
      (executeRound (checkValidateTimeOut
        { st with preRoundId := pre, curRoundId := cur, seed := seedNow })
        env vl es cs pE pC).1.verifying := by
  unfold startValidate
  rw [if_neg (by simp [checkValidateTimeOut, hen])]
  rcases hER : executeRound (checkValidateTimeOut
    { st with preRoundId := pre, curRoundId := cur, seed := seedNow })
    env vl es cs pE pC with ⟨st3, r⟩
  cases r <;> simp

/-- Counterexample to C3 as stated. With validation disabled (the
scheduler's construction default), a concrete preflight marks the stale
device `d1` timeout for the previous round but does **not** clear the
verifying set: `d1` is still in it afterwards. -/
theorem c3_preflight_counterexample :
    (startValidate ⟨0, 0, 0, 10, 5, false, EngineMode.notStarted, ["d1"], [], []⟩
      5 6 7 ⟨fun _ => none, fun _ => none⟩ [] [] [] (fun _ => 0) (fun _ => 0)).1.verifying
      = ["d1"] ∧
    (startValidate ⟨0, 0, 0, 10, 5, false, EngineMode.notStarted, ["d1"], [], []⟩
      5 6 7 ⟨fun _ => none, fun _ => none⟩ [] [] [] (fun _ => 0) (fun _ => 0)).1.writes
      = [DBWrite.updateFail 5 "d1" errMsgTimeOut ValidateStatus.timeOut] := by
  constructor <;> rfl

/-- C3 amended. At preflight every device still in the verifying set is
marked timeout for the previous round id; when validation is enabled the
set is then cleared inside `execute` and repopulated only with devices
scheduled (given a `created` row) for the new round; when validation is
disabled the set is left unchanged — the clearing is skipped. -/
theorem c3_preflight_amended (st : EngineState) (pre cur seedNow : Int)
    (env : AssemblyEnv) (vl : List String) (es cs : List NodeEntry)
    (pE pC : Nat → Nat) :
    (∀ d ∈ st.verifying,
      DBWrite.updateFail pre d errMsgTimeOut ValidateStatus.timeOut ∈
        (startValidate st pre cur seedNow env vl es cs pE pC).1.writes) ∧
    (st.enable = true →
      ∀ d ∈ (startValidate st pre cur seedNow env vl es cs pE pC).1.verifying,
        ∃ w, DBWrite.insertResult cur d w ValidateStatus.create ∈
          (startValidate st pre cur seedNow env vl es cs pE pC).1.writes) ∧
    (st.enable = false →
      (startValidate st pre cur seedNow env vl es cs pE pC).1.verifying = st.verifying) := by
  have hmark : ∀ d ∈ st.verifying,
      DBWrite.updateFail pre d errMsgTimeOut ValidateStatus.timeOut ∈
        (checkValidateTimeOut
          { st with preRoundId := pre, curRoundId := cur, seed := seedNow }).writes := by
    intro d hd
    simp only [checkValidateTimeOut]
    exact List.mem_append_right _ (List.mem_map.mpr ⟨d, hd, rfl⟩)
  by_cases hen : st.enable = true
  · obtain ⟨hw, hv⟩ := startValidate_enabled_fields st pre cur seedNow env vl es cs pE pC hen
    obtain ⟨hcur, ⟨t, ht⟩, hinv⟩ := executeRound_props
      (checkValidateTimeOut { st with preRoundId := pre, curRoundId := cur, seed := seedNow })
      env vl es cs pE pC
    refine ⟨?_, ?_, ?_⟩
    · intro d hd
      rw [hw, ht]
      exact List.mem_append_left _ (hmark d hd)
    · intro _ d hd
      rw [hv] at hd
      obtain ⟨w, hmem⟩ := hinv d hd
      refine ⟨w, ?_⟩
      rw [hw]
      simpa [checkValidateTimeOut] using hmem
    · intro hfalse
      rw [hfalse] at hen
      cases hen
  · have hen' : st.enable = false := by
      cases h : st.enable
      · rfl
      · exact absurd h hen
    have hdis := startValidate_disabled st pre cur seedNow env vl es cs pE pC hen'
    refine ⟨?_, ?_, ?_⟩
    · intro d hd
      rw [hdis]
      exact hmark d hd
    · intro htrue
      exact absurd htrue hen
    · intro _
      rw [hdis]
      rfl

/-- Witness for the amended C3: an enabled concrete preflight marks the
stale device `old` timeout for round 1, and its resulting verifying set
`["e1"]` consists of the device scheduled (with a `created` row) for
round 2. -/
theorem c3_preflight_amended_witness :
    DBWrite.updateFail 1 "old" errMsgTimeOut ValidateStatus.timeOut ∈
      (startValidate ⟨0, 0, 0, 10, 5, true, EngineMode.notStarted, ["old"], [], []⟩
        1 2 9 ⟨fun _ => some 4, fun _ => some 6⟩ ["c1"] [⟨"e1", "a"⟩] []
        (fun _ => 0) (fun _ => 0)).1.writes ∧
    (∃ w, DBWrite.insertResult 2 "e1" w ValidateStatus.create ∈
      (startValidate ⟨0, 0, 0, 10, 5, true, EngineMode.notStarted, ["old"], [], []⟩
        1 2 9 ⟨fun _ => some 4, fun _ => some 6⟩ ["c1"] [⟨"e1", "a"⟩] []
        (fun _ => 0) (fun _ => 0)).1.writes) := by
  have h := c3_preflight_amended ⟨0, 0, 0, 10, 5, true, EngineMode.notStarted, ["old"], [], []⟩
    1 2 9 ⟨fun _ => some 4, fun _ => some 6⟩ ["c1"] [⟨"e1", "a"⟩] []
    (fun _ => 0) (fun _ => 0)
  have hv : (startValidate ⟨0, 0, 0, 10, 5, true, EngineMode.notStarted, ["old"], [], []⟩
      1 2 9 ⟨fun _ => some 4, fun _ => some 6⟩ ["c1"] [⟨"e1", "a"⟩] []
      (fun _ => 0) (fun _ => 0)).1.verifying = ["e1"] := rfl
  exact ⟨h.1 "old" (by simp), h.2.1 rfl "e1" (by rw [hv]; simp)⟩

/-! ## C6 — the manual trigger `StartValidateOnceTask` -/

/-- The only error `validateMapping` produces is the empty-plan message. -/
theorem validateMapping_error_msg (vl : List String) (es cs : List NodeEntry)
    (pE pC : Nat → Nat) (e : String)
    (h : validateMapping vl es cs pE pC = Except.error e) :
    e = "edge node and candidate node are empty" := by
  simp only [validateMapping] at h
  by_cases hlen : (candidateLoop vl pC cs 0 (edgeLoop vl pE es 0 [])).length = 0
  · rw [if_pos hlen] at h
    injection h with h'
    exact h'.symm
  · rw [if_neg hlen] at h
    cases h

/-- The only error `execute` produces is the empty-plan message. -/
theorem executeRound_error_msg (st : EngineState) (env : AssemblyEnv) (vl : List String)
    (es cs : List NodeEntry) (pE pC : Nat → Nat) (e : String)
    (h : (executeRound st env vl es cs pE pC).2 = Except.error e) :
    e = "edge node and candidate node are empty" := by
  unfold executeRound at h
  by_cases hvl : vl.length = 0
  · rw [if_pos hvl] at h
    cases h
  · rw [if_neg hvl] at h
    cases hm : validateMapping vl es cs pE pC with
    | error e' =>
      rw [hm] at h
      injection h with h'
      exact h' ▸ validateMapping_error_msg vl es cs pE pC e' hm
    | ok plan =>
      rw [hm] at h
      cases h

/-- The only error `startValidate` produces is the empty-plan message. -/
theorem startValidate_error_msg (st : EngineState) (pre cur seedNow : Int)
    (env : AssemblyEnv) (vl : List String) (es cs : List NodeEntry)
    (pE pC : Nat → Nat) (e : String)
    (h : (startValidate st pre cur seedNow env vl es cs pE pC).2 = Except.error e) :
    e = "edge node and candidate node are empty" := by
  unfold startValidate at h
  by_cases hen : (checkValidateTimeOut
      { st with preRoundId := pre, curRoundId := cur, seed := seedNow }).enable = false
  · rw [if_pos hen] at h
    cases h
  · rw [if_neg hen] at h
    rcases hER : executeRound (checkValidateTimeOut
        { st with preRoundId := pre, curRoundId := cur, seed := seedNow })
        env vl es cs pE pC with ⟨st3, r⟩
    rw [hER] at h
    cases r with
    | error e' =>
      injection h with h'
      have h2 : (executeRound (checkValidateTimeOut
          { st with preRoundId := pre, curRoundId := cur, seed := seedNow })
          env vl es cs pE pC).2 = Except.error e' := by
        rw [hER]
      exact h' ▸ executeRound_error_msg _ env vl es cs pE pC e' h2
    | ok u =>
      cases h

/-- C6. `StartValidateOnceTask` returns the in-progress error, and performs
nothing, exactly when the validate state is `running`; otherwise it
schedules the cron restart one interval ahead, stops the cron, runs one
round immediately (its state becomes exactly the state `startValidate`
leaves behind with the enable flag turned on), and the in-progress error is
returned in no other case. -/
theorem c6_start_validate_once (st : EngineState) (pre cur seedNow : Int)
    (env : AssemblyEnv) (vl : List String) (es cs : List NodeEntry)
    (pE pC : Nat → Nat) :
    (st.validateState = EngineMode.starting →
      StartValidateOnceTask st pre cur seedNow env vl es cs pE pC =
        (st, [], Except.error inProgressMsg)) ∧
    (st.validateState ≠ EngineMode.starting →
      (StartValidateOnceTask st pre cur seedNow env vl es cs pE pC).2.1 =
        [TaskAction.timerRestartAfter st.interval, TaskAction.timerStop,
          TaskAction.runRound] ∧
      (StartValidateOnceTask st pre cur seedNow env vl es cs pE pC).1 =
        (startValidate { st with enable := true } pre cur seedNow env vl es cs pE pC).1) ∧
    ((StartValidateOnceTask st pre cur seedNow env vl es cs pE pC).2.2 =
        Except.error inProgressMsg ↔ st.validateState = EngineMode.starting) := by
  by_cases hst : st.validateState = EngineMode.starting
  · refine ⟨fun _ => by simp [StartValidateOnceTask, hst], fun h => absurd hst h, ?_⟩
    simp [StartValidateOnceTask, hst]
  · have hred : StartValidateOnceTask st pre cur seedNow env vl es cs pE pC =
        (match startValidate { st with enable := true } pre cur seedNow env vl es cs pE pC with
          | (st2, .error e) =>
            (st2, [TaskAction.timerRestartAfter st.interval, TaskAction.timerStop,
              TaskAction.runRound], Except.error e)
          | (st2, .ok _) =>
            (st2, [TaskAction.timerRestartAfter st.interval, TaskAction.timerStop,
              TaskAction.runRound], Except.ok ())) := by
      simp only [StartValidateOnceTask, if_neg hst]
    rcases hSV : startValidate { st with enable := true } pre cur seedNow env vl es cs pE pC
      with ⟨st2, r⟩
    refine ⟨fun h => absurd h hst, fun _ => ?_, ?_⟩
    · rw [hred, hSV]
      cases r <;> exact ⟨rfl, rfl⟩
    · rw [hred, hSV]
      cases r with
      | error e =>
        constructor
        · intro hE
          injection hE with hE'
          have h2 : (startValidate { st with enable := true } pre cur seedNow
              env vl es cs pE pC).2 = Except.error e := by rw [hSV]
          have := startValidate_error_msg _ pre cur seedNow env vl es cs pE pC e h2
          rw [this] at hE'
          exact absurd hE' (by decide)
        · intro hcontra
          exact absurd hcontra hst
      | ok u =>
        constructor
        · intro hE
          cases hE
        · intro hcontra
          exact absurd hcontra hst

/-- Witness for C6 at a concrete idle engine: the action trace is
restart-after-interval, stop, run-round, and the in-progress error is not
returned (the state was not `running`). -/
theorem c6_start_validate_once_witness :
    (StartValidateOnceTask ⟨0, 0, 0, 10, 5, false, EngineMode.notStarted, [], [], []⟩
      1 2 9 ⟨fun _ => some 4, fun _ => some 6⟩ ["c1"] [⟨"e1", "a"⟩] []
      (fun _ => 0) (fun _ => 0)).2.1 =
        [TaskAction.timerRestartAfter 5, TaskAction.timerStop, TaskAction.runRound] ∧
    ¬((StartValidateOnceTask ⟨0, 0, 0, 10, 5, false, EngineMode.notStarted, [], [], []⟩
      1 2 9 ⟨fun _ => some 4, fun _ => some 6⟩ ["c1"] [⟨"e1", "a"⟩] []
      (fun _ => 0) (fun _ => 0)).2.2 = Except.error inProgressMsg) := by
  have h := c6_start_validate_once ⟨0, 0, 0, 10, 5, false, EngineMode.notStarted, [], [], []⟩
    1 2 9 ⟨fun _ => some 4, fun _ => some 6⟩ ["c1"] [⟨"e1", "a"⟩] []
    (fun _ => 0) (fun _ => 0)
  refine ⟨(h.2.1 (by simp)).1, fun hE => ?_⟩
  have := h.2.2.mp hE
  simp at this

end Titan
